import Mathlib

/-!
Verification development for the stale-issue processor (`src/IssueProcessor.ts`).

The TypeScript class `IssueProcessor` is shallowly embedded as pure Lean
functions over an explicit run state (`ProcState`).  Instance fields of the
class (`operationsLeft`, `staleIssues`, `closedIssues`, `removedLabelIssues`)
become fields of that state; external collaborators (the GitHub client and
`github.context`) become an environment record `Env`; narration calls
(`core.info` / `core.warning`) have no observable effect on the state and are
omitted.  Every external wire call the processor issues is recorded in a
ghost `log` field of the state, so that frame and dry-run properties can be
stated about which calls were attempted.

Times: the source keeps timestamps as strings and converts them with
`new Date(s).getTime()`; the embedding keeps them as strings and models the
conversion with an environment function `parseTime`, the single `new Date()`
wall clock with `now`, and `Date.prototype.toString` with `render` (the run
is modelled against one frozen clock reading, as all claims are
per-evaluation claims).
-/

namespace Stale

/-- A label on an issue (source `interface Label`). -/
structure Label where
  name : String
  deriving DecidableEq

/-- A comment author (source `interface User`): account type and login. -/
structure User where
  type : String
  login : String
  deriving DecidableEq

/-- A comment on an issue (source `interface Comment`). -/
structure Comment where
  user : User
  deriving DecidableEq

/-- A label event on an issue (source `interface IssueEvent`). -/
structure IssueEvent where
  created_at : String
  event : String
  label : Label
  deriving DecidableEq

/-- An issue or pull request (source `interface Issue`).  The source stores
arbitrary data in `pull_request` and only ever tests its truthiness
(`!!issue.pull_request`), so the field is modelled by that truthiness. -/
structure Issue where
  title : String
  number : Nat
  updated_at : String
  labels : List Label
  pull_request : Bool
  state : String
  locked : Bool
  deriving DecidableEq

/-- Run configuration (source `interface IssueProcessorOptions`). -/
structure IssueProcessorOptions where
  repoToken : String
  staleIssueMessage : String
  stalePrMessage : String
  daysBeforeStale : Int
  daysBeforeClose : Int
  staleIssueLabel : String
  exemptIssueLabels : String
  stalePrLabel : String
  exemptPrLabels : String
  onlyLabels : String
  operationsPerRun : Int
  removeStaleWhenUpdated : Bool
  debugOnly : Bool
  deriving DecidableEq

/-- The external world the processor runs against: the frozen wall clock,
string-to-millisecond timestamp parsing (`new Date(s).getTime()`), the
`Date.prototype.toString` rendering used by `markStale`, the invoking actor
(`github.context.actor`), and the three read collaborators: `pages page` is
what `client.issues.listForRepo` returns for a page index, `comments n since`
is what `client.issues.listComments` returns for issue `n` and a `since`
date, and `events n` is the full label-event history `client.paginate`
returns for issue `n`. -/
structure Env where
  now : Int
  parseTime : String → Int
  render : Int → String
  actor : String
  pages : Nat → List Issue
  comments : Nat → String → List Comment
  events : Nat → List IssueEvent

/-- One external wire call issued by the processor, as recorded in the ghost
log.  `removeLabel` records the label before the source's
`encodeURIComponent` escaping, which does not affect any claim. -/
inductive ExtCall where
  | listIssues (page perPage : Nat)
  | listComments (issueNumber : Nat) (sinceDate : String)
  | listEvents (issueNumber : Nat)
  | createComment (issueNumber : Nat) (body : String)
  | addLabels (issueNumber : Nat) (label : String)
  | removeLabel (issueNumber : Nat) (label : String)
  | closeIssue (issueNumber : Nat)
  deriving DecidableEq

/-- Whether a wire call is a mutation (write), as opposed to a read. -/
def ExtCall.isMutation : ExtCall → Bool
  | .createComment _ _ => true
  | .addLabels _ _ => true
  | .removeLabel _ _ => true
  | .closeIssue _ => true
  | _ => false

/-- Whether a wire call is a page fetch (`client.issues.listForRepo`). -/
def ExtCall.isPageFetch : ExtCall → Bool
  | .listIssues _ _ => true
  | _ => false

/-- Whether a wire call is part of a stale transition: the stale comment or
the stale label application. -/
def ExtCall.isStaleMarkCall : ExtCall → Bool
  | .createComment _ _ => true
  | .addLabels _ _ => true
  | _ => false

/-- The mutable per-run state of an `IssueProcessor` instance: the remaining
operation budget and the three bookkeeping lists, plus the ghost log of issued
wire calls. -/
structure ProcState where
  operationsLeft : Int
  staleIssues : List Issue
  closedIssues : List Issue
  removedLabelIssues : List Issue
  log : List ExtCall
  deriving DecidableEq

/-- Models the case mapping applied by `String.prototype.localeCompare` with
`{sensitivity: 'accent'}`: letters that differ only in case compare equal,
letters that differ in diacritics do not.  The embedding folds case over
ASCII `A`–`Z` and the Latin-1 uppercase range `À`–`Þ` (skipping `×`), which
covers every string the claims exercise. -/
def jsCharFold (c : Char) : Char :=
  let n := c.toNat
  if 65 ≤ n ∧ n ≤ 90 then Char.ofNat (n + 32)
  else if (192 ≤ n ∧ n ≤ 222) ∧ n ≠ 215 then Char.ofNat (n + 32)
  else c

/-- Case folding of a whole string: `jsCharFold` applied to every
character (written over the underlying character list so that it evaluates
by kernel reduction). -/
def jsCaseFold (s : String) : String :=
  ⟨s.data.map jsCharFold⟩

/-- Models `a.localeCompare(b, undefined, {sensitivity: 'accent'}) === 0`:
equality up to case, with accents and diacritics significant. -/
def localeEqAccent (a b : String) : Bool :=
  jsCaseFold a == jsCaseFold b

/-- Source `IssueProcessor.isLabeled`: does the issue carry a label whose
name matches `label` under the accent-sensitivity locale comparison? -/
def isLabeled (issue : Issue) (label : String) : Bool :=
  decide (0 < (issue.labels.filter (fun l => localeEqAccent label l.name)).length)

/-- Source `IssueProcessor.updatedSince`: was the timestamp updated within
the last `num_days` days of the clock reading? -/
def updatedSince (env : Env) (timestamp : String) (num_days : Int) : Bool :=
  let daysInMillis : Int := 1000 * 60 * 60 * 24 * num_days
  let millisSinceLastUpdated : Int := env.now - env.parseTime timestamp
  decide (millisSinceLastUpdated ≤ daysInMillis)

/-- Source `IssueProcessor.parseCommaSeparatedString`: empty string maps to
the empty list, otherwise split on commas and trim each element. -/
def parseCommaSeparatedString (s : String) : List String :=
  if s.length = 0 then []
  else (s.splitOn ",").map (fun l => l.trim)

/-- JavaScript `a || b` for an optional string `a`: the empty string and an
absent value are both falsy and fall through to `b`. -/
def jsOrElse (a : Option String) (b : String) : String :=
  match a with
  | some s => if s.isEmpty then b else s
  | none => b

/-- The pure lookup inside `getLabelCreationDate`: reverse the event history
and find the first event that is a `labeled` event for exactly the searched
label name (strict `===` string equality in the source). -/
def findLabelCreationDate (env : Env) (issue : Issue) (label : String) : Option String :=
  let events := env.events issue.number
  let reversedEvents := events.reverse
  let staleLabeledEvent := reversedEvents.find? (fun e => e.event == "labeled" && e.label.name == label)
  staleLabeledEvent.map (fun e => e.created_at)

/-- Source `IssueProcessor.getLabelCreationDate`: decrement the budget, issue
the label-event-history read, and return the creation date of the matching
event (or nothing). -/
def getLabelCreationDate (env : Env) (issue : Issue) (label : String)
    (st : ProcState) : Option String × ProcState :=
  let st := { st with operationsLeft := st.operationsLeft - 1,
                      log := st.log ++ [.listEvents issue.number] }
  (findLabelCreationDate env issue label, st)

/-- The comments that count as qualifying activity in `hasCommentsSince`:
authored by a human account (`User` type) whose login differs from the
invoking actor. -/
def filteredCommentsOf (env : Env) (issue : Issue) (sinceDate : String) : List Comment :=
  (env.comments issue.number sinceDate).filter
    (fun c => c.user.type == "User" && c.user.login != env.actor)

/-- Source `IssueProcessor.hasCommentsSince`: an empty `sinceDate` is
conservatively treated as "has comments" without any wire call; otherwise
the comments-since read is issued (with no budget decrement in the source)
and the result is whether any qualifying comment exists. -/
def hasCommentsSince (env : Env) (issue : Issue) (sinceDate : String)
    (st : ProcState) : Bool × ProcState :=
  if sinceDate.isEmpty then (true, st)
  else
    let st := { st with log := st.log ++ [.listComments issue.number sinceDate] }
    (decide (0 < (filteredCommentsOf env issue sinceDate).length), st)

/-- Source `IssueProcessor.markStale`: record the issue in `staleIssues`,
spend two budget units, rewrite the issue's `updated_at` to the render of
`now - daysBeforeStale` days, and (unless in dry-run) issue the stale
comment and the stale label application.  The source pushes the issue
object by reference and then mutates its `updated_at`, so the recorded
issue carries the rewritten timestamp; the embedding pushes the rewritten
value. -/
def markStale (env : Env) (options : IssueProcessorOptions) (issue : Issue)
    (staleMessage staleLabel : String) (st : ProcState) : Issue × ProcState :=
  let daysBeforeStaleInMillis : Int := 1000 * 60 * 60 * 24 * options.daysBeforeStale
  let issueUpdated : Issue := { issue with updated_at := env.render (env.now - daysBeforeStaleInMillis) }
  let st := { st with staleIssues := st.staleIssues ++ [issueUpdated],
                      operationsLeft := st.operationsLeft - 2 }
  if options.debugOnly then
    (issueUpdated, st)
  else
    (issueUpdated,
     { st with log := st.log ++ [.createComment issue.number staleMessage,
                                 .addLabels issue.number staleLabel] })

/-- Source `IssueProcessor.closeIssue`: record the issue in `closedIssues`,
spend one budget unit, and (unless in dry-run) issue the closing update. -/
def closeIssue (options : IssueProcessorOptions) (issue : Issue)
    (st : ProcState) : ProcState :=
  let st := { st with closedIssues := st.closedIssues ++ [issue],
                      operationsLeft := st.operationsLeft - 1 }
  if options.debugOnly then st
  else { st with log := st.log ++ [.closeIssue issue.number] }

/-- Source `IssueProcessor.removeLabel`: record the issue in
`removedLabelIssues`, spend one budget unit, and (unless in dry-run) issue
the label removal. -/
def removeLabel (options : IssueProcessorOptions) (issue : Issue) (label : String)
    (st : ProcState) : ProcState :=
  let st := { st with removedLabelIssues := st.removedLabelIssues ++ [issue],
                      operationsLeft := st.operationsLeft - 1 }
  if options.debugOnly then st
  else { st with log := st.log ++ [.removeLabel issue.number label] }

/-- Source `IssueProcessor.processStaleIssue`: look up when the stale label
was applied (falling back to the issue's `updated_at`), check for qualifying
comments since then, possibly remove the stale label, and possibly close the
issue. -/
def processStaleIssue (env : Env) (options : IssueProcessorOptions) (issue : Issue)
    (staleLabel : String) (st : ProcState) : ProcState :=
  let r1 := getLabelCreationDate env issue staleLabel st
  let markedStaleOn : String := jsOrElse r1.1 issue.updated_at
  let r2 := hasCommentsSince env issue markedStaleOn r1.2
  let issueHasComments : Bool := r2.1
  let issueHasUpdate : Bool :=
    updatedSince env issue.updated_at (options.daysBeforeClose + options.daysBeforeStale)
  let st := r2.2
  let st :=
    if options.removeStaleWhenUpdated && issueHasComments then
      removeLabel options issue staleLabel st
    else st
  if options.daysBeforeClose < 0 then st
  else if !issueHasComments && !issueHasUpdate then closeIssue options issue st
  else st

/-- The per-item stale message the loop in `processIssues` selects:
`stalePrMessage` for pull requests, `staleIssueMessage` for issues. -/
def staleMessageFor (options : IssueProcessorOptions) (issue : Issue) : String :=
  if issue.pull_request then options.stalePrMessage else options.staleIssueMessage

/-- The per-item stale label the loop in `processIssues` selects. -/
def staleLabelFor (options : IssueProcessorOptions) (issue : Issue) : String :=
  if issue.pull_request then options.stalePrLabel else options.staleIssueLabel

/-- The per-item exempt-label list the loop in `processIssues` selects and
parses. -/
def exemptLabelsFor (options : IssueProcessorOptions) (issue : Issue) : List String :=
  parseCommaSeparatedString
    (if issue.pull_request then options.exemptPrLabels else options.exemptIssueLabels)

/-- The body of the `for (const issue of issues.values())` loop in
`processIssues`: per-item skip checks followed by the stale/close decision
engine. -/
def handleIssue (env : Env) (options : IssueProcessorOptions) (st : ProcState)
    (issue : Issue) : ProcState :=
  let staleMessage : String := staleMessageFor options issue
  let staleLabel : String := staleLabelFor options issue
  let exemptLabels : List String := exemptLabelsFor options issue
  if staleMessage.isEmpty then st
  else if issue.state == "closed" then st
  else if issue.locked then st
  else if exemptLabels.any (fun exemptLabel => isLabeled issue exemptLabel) then st
  else
    let isStale : Bool := isLabeled issue staleLabel
    let shouldBeStale : Bool := !updatedSince env issue.updated_at options.daysBeforeStale
    if !isStale && shouldBeStale then
      let r := markStale env options issue staleMessage staleLabel st
      processStaleIssue env options r.1 staleLabel r.2
    else if isStale then
      processStaleIssue env options issue staleLabel st
    else st

/-- Processing of one fetched page: the issues are evaluated strictly one at
a time, each against the state the previous one left behind. -/
def processPage (env : Env) (options : IssueProcessorOptions) (st : ProcState)
    (issues : List Issue) : ProcState :=
  issues.foldl (fun st issue => handleIssue env options st issue) st

/-- The stale-label application timestamp `processStaleIssue` computes:
the found `labeled` event date, or the issue's `updated_at` when the lookup
comes back empty or absent. -/
def markedStaleOnOf (env : Env) (issue : Issue) (staleLabel : String) : String :=
  jsOrElse (findLabelCreationDate env issue staleLabel) issue.updated_at

/-- The `issueHasComments` flag `processStaleIssue` computes. -/
def hasCommentsOf (env : Env) (issue : Issue) (staleLabel : String) : Bool :=
  if (markedStaleOnOf env issue staleLabel).isEmpty then true
  else decide (0 < (filteredCommentsOf env issue (markedStaleOnOf env issue staleLabel)).length)

/-- The `issueHasUpdate` flag `processStaleIssue` computes. -/
def hasUpdateOf (env : Env) (options : IssueProcessorOptions) (issue : Issue) : Bool :=
  updatedSince env issue.updated_at (options.daysBeforeClose + options.daysBeforeStale)

/-- Whether `processStaleIssue` takes the Unstale transition. -/
def unstalesOf (env : Env) (options : IssueProcessorOptions) (issue : Issue)
    (staleLabel : String) : Bool :=
  options.removeStaleWhenUpdated && hasCommentsOf env issue staleLabel

/-- Whether `processStaleIssue` takes the Closed transition. -/
def closesOf (env : Env) (options : IssueProcessorOptions) (issue : Issue)
    (staleLabel : String) : Bool :=
  !decide (options.daysBeforeClose < 0)
    && (!hasCommentsOf env issue staleLabel && !hasUpdateOf env options issue)

/-- Closed form of `processStaleIssue`: its effect on every state component,
expressed through the decision flags. -/
theorem processStaleIssue_spec (env : Env) (options : IssueProcessorOptions)
    (issue : Issue) (staleLabel : String) (st : ProcState) :
    processStaleIssue env options issue staleLabel st =
      { operationsLeft := st.operationsLeft - 1
          - (if unstalesOf env options issue staleLabel then 1 else 0)
          - (if closesOf env options issue staleLabel then 1 else 0)
        staleIssues := st.staleIssues
        closedIssues := st.closedIssues
          ++ (if closesOf env options issue staleLabel then [issue] else [])
        removedLabelIssues := st.removedLabelIssues
          ++ (if unstalesOf env options issue staleLabel then [issue] else [])
        log := st.log ++ [.listEvents issue.number]
          ++ (if (markedStaleOnOf env issue staleLabel).isEmpty then []
              else [.listComments issue.number (markedStaleOnOf env issue staleLabel)])
          ++ (if unstalesOf env options issue staleLabel && !options.debugOnly then
                [.removeLabel issue.number staleLabel] else [])
          ++ (if closesOf env options issue staleLabel && !options.debugOnly then
                [.closeIssue issue.number] else []) } := by
  unfold processStaleIssue getLabelCreationDate hasCommentsSince removeLabel closeIssue
    unstalesOf closesOf hasCommentsOf hasUpdateOf markedStaleOnOf
  dsimp only
  split_ifs <;> simp_all [List.append_assoc]

theorem getLabelCreationDate_operationsLeft (env : Env) (issue : Issue) (label : String)
    (st : ProcState) :
    (getLabelCreationDate env issue label st).2.operationsLeft = st.operationsLeft - 1 := rfl

theorem hasCommentsSince_operationsLeft (env : Env) (issue : Issue) (sinceDate : String)
    (st : ProcState) :
    (hasCommentsSince env issue sinceDate st).2.operationsLeft = st.operationsLeft := by
  unfold hasCommentsSince
  split <;> rfl

theorem markStale_operationsLeft (env : Env) (options : IssueProcessorOptions) (issue : Issue)
    (staleMessage staleLabel : String) (st : ProcState) :
    (markStale env options issue staleMessage staleLabel st).2.operationsLeft =
      st.operationsLeft - 2 := by
  unfold markStale
  split <;> rfl

theorem closeIssue_operationsLeft (options : IssueProcessorOptions) (issue : Issue)
    (st : ProcState) :
    (closeIssue options issue st).operationsLeft = st.operationsLeft - 1 := by
  unfold closeIssue
  split <;> rfl

theorem removeLabel_operationsLeft (options : IssueProcessorOptions) (issue : Issue)
    (label : String) (st : ProcState) :
    (removeLabel options issue label st).operationsLeft = st.operationsLeft - 1 := by
  unfold removeLabel
  split <;> rfl

theorem processStaleIssue_operationsLeft_le (env : Env) (options : IssueProcessorOptions)
    (issue : Issue) (staleLabel : String) (st : ProcState) :
    (processStaleIssue env options issue staleLabel st).operationsLeft ≤
      st.operationsLeft - 1 := by
  rw [processStaleIssue_spec]
  dsimp only
  split_ifs <;> omega

theorem handleIssue_operationsLeft_le (env : Env) (options : IssueProcessorOptions)
    (st : ProcState) (issue : Issue) :
    (handleIssue env options st issue).operationsLeft ≤ st.operationsLeft := by
  unfold handleIssue
  dsimp only
  split_ifs with h1 h2 h3 h4 h5 h6
  · omega
  · omega
  · omega
  · omega
  · have ha := markStale_operationsLeft env options issue (staleMessageFor options issue)
      (staleLabelFor options issue) st
    have hb := processStaleIssue_operationsLeft_le env options
      (markStale env options issue (staleMessageFor options issue) (staleLabelFor options issue) st).1
      (staleLabelFor options issue)
      (markStale env options issue (staleMessageFor options issue) (staleLabelFor options issue) st).2
    omega
  · have hb := processStaleIssue_operationsLeft_le env options issue (staleLabelFor options issue) st
    omega
  · omega

theorem processPage_operationsLeft_le (env : Env) (options : IssueProcessorOptions)
    (issues : List Issue) (st : ProcState) :
    (processPage env options st issues).operationsLeft ≤ st.operationsLeft := by
  induction issues generalizing st with
  | nil => exact le_refl _
  | cons issue rest ih =>
    have h1 := handleIssue_operationsLeft_le env options st issue
    have h2 := ih (handleIssue env options st issue)
    calc (processPage env options st (issue :: rest)).operationsLeft
        = (processPage env options (handleIssue env options st issue) rest).operationsLeft := rfl
      _ ≤ (handleIssue env options st issue).operationsLeft := h2
      _ ≤ st.operationsLeft := h1

/-- Source `IssueProcessor.processIssues`: fetch the page (recording the
wire call with the source's fixed page size 100), spend one budget unit,
stop on an empty page (returning the remaining budget), otherwise process
the whole page and either stop on an exhausted budget (returning 0) or
recurse to the next page. -/
def processIssues (env : Env) (options : IssueProcessorOptions) (st : ProcState)
    (page : Nat) : Int × ProcState :=
  let issues : List Issue := env.pages page
  let st1 : ProcState := { st with operationsLeft := st.operationsLeft - 1,
                                   log := st.log ++ [.listIssues page 100] }
  if issues.length ≤ 0 then
    (st1.operationsLeft, st1)
  else if h : (processPage env options st1 issues).operationsLeft ≤ 0 then
    (0, processPage env options st1 issues)
  else
    processIssues env options (processPage env options st1 issues) (page + 1)
termination_by st.operationsLeft.toNat
decreasing_by
  have hle := processPage_operationsLeft_le env options issues st1
  unfold st1 issues at *
  dsimp only at *
  omega

/-- The state an `IssueProcessor` starts a run with (constructor:
`operationsLeft = options.operationsPerRun`, empty bookkeeping lists). -/
def initialState (options : IssueProcessorOptions) : ProcState :=
  { operationsLeft := options.operationsPerRun
    staleIssues := []
    closedIssues := []
    removedLabelIssues := []
    log := [] }

/-- A full run: `processIssues` from the initial state at page 1 (the
source's default argument). -/
def runProcess (env : Env) (options : IssueProcessorOptions) : Int × ProcState :=
  processIssues env options (initialState options) 1

/-- The page indices (with their page sizes) of the page-fetch wire calls in
a log, in the order they were issued. -/
def fetchCalls (log : List ExtCall) : List (Nat × Nat) :=
  log.filterMap (fun e => match e with
    | .listIssues p pp => some (p, pp)
    | _ => none)

theorem fetchCalls_append (a b : List ExtCall) :
    fetchCalls (a ++ b) = fetchCalls a ++ fetchCalls b := by
  unfold fetchCalls
  exact List.filterMap_append a b _

/-- Everything `processStaleIssue` appends to the log: no page fetch, no
stale-transition call, and no mutation at all under dry-run. -/
theorem processStaleIssue_log (env : Env) (options : IssueProcessorOptions)
    (issue : Issue) (staleLabel : String) (st : ProcState) :
    ∃ t, (processStaleIssue env options issue staleLabel st).log = st.log ++ t
      ∧ fetchCalls t = []
      ∧ t.filter (fun e => e.isStaleMarkCall) = []
      ∧ (options.debugOnly = true → t.filter (fun e => e.isMutation) = []) := by
  rw [processStaleIssue_spec]
  refine ⟨[ExtCall.listEvents issue.number]
      ++ (if (markedStaleOnOf env issue staleLabel).isEmpty then []
          else [ExtCall.listComments issue.number (markedStaleOnOf env issue staleLabel)])
      ++ (if unstalesOf env options issue staleLabel && !options.debugOnly then
            [ExtCall.removeLabel issue.number staleLabel] else [])
      ++ (if closesOf env options issue staleLabel && !options.debugOnly then
            [ExtCall.closeIssue issue.number] else []), ?_, ?_, ?_, ?_⟩
  · simp [List.append_assoc]
  · split_ifs <;> rfl
  · split_ifs <;> rfl
  · intro hdbg
    simp [hdbg, ExtCall.isMutation]

/-- Everything `markStale` appends to the log: no page fetch, and nothing at
all under dry-run. -/
theorem markStale_log (env : Env) (options : IssueProcessorOptions) (issue : Issue)
    (staleMessage staleLabel : String) (st : ProcState) :
    ∃ t, (markStale env options issue staleMessage staleLabel st).2.log = st.log ++ t
      ∧ fetchCalls t = []
      ∧ (options.debugOnly = true → t = []) := by
  unfold markStale
  dsimp only
  split_ifs with h
  · exact ⟨[], by simp, rfl, fun _ => rfl⟩
  · exact ⟨[ExtCall.createComment issue.number staleMessage,
            ExtCall.addLabels issue.number staleLabel], rfl, rfl, fun hh => absurd hh h⟩

/-- Everything `handleIssue` appends to the log: no page fetch, and no
mutation at all under dry-run. -/
theorem handleIssue_log (env : Env) (options : IssueProcessorOptions)
    (st : ProcState) (issue : Issue) :
    ∃ t, (handleIssue env options st issue).log = st.log ++ t
      ∧ fetchCalls t = []
      ∧ (options.debugOnly = true → t.filter (fun e => e.isMutation) = []) := by
  unfold handleIssue
  dsimp only
  split_ifs with h1 h2 h3 h4 h5 h6
  · exact ⟨[], by simp, rfl, fun _ => rfl⟩
  · exact ⟨[], by simp, rfl, fun _ => rfl⟩
  · exact ⟨[], by simp, rfl, fun _ => rfl⟩
  · exact ⟨[], by simp, rfl, fun _ => rfl⟩
  · obtain ⟨t1, ht1, hf1, hd1⟩ := markStale_log env options issue
      (staleMessageFor options issue) (staleLabelFor options issue) st
    obtain ⟨t2, ht2, hf2, hs2, hd2⟩ := processStaleIssue_log env options
      (markStale env options issue (staleMessageFor options issue)
        (staleLabelFor options issue) st).1
      (staleLabelFor options issue)
      (markStale env options issue (staleMessageFor options issue)
        (staleLabelFor options issue) st).2
    refine ⟨t1 ++ t2, ?_, ?_, ?_⟩
    · rw [ht2, ht1, List.append_assoc]
    · rw [fetchCalls_append, hf1, hf2]
      rfl
    · intro hdbg
      rw [List.filter_append, hd1 hdbg, hd2 hdbg]
      rfl
  · obtain ⟨t2, ht2, hf2, hs2, hd2⟩ := processStaleIssue_log env options issue
      (staleLabelFor options issue) st
    exact ⟨t2, ht2, hf2, hd2⟩
  · exact ⟨[], by simp, rfl, fun _ => rfl⟩

/-- Everything `processPage` appends to the log: no page fetch, and no
mutation at all under dry-run. -/
theorem processPage_log (env : Env) (options : IssueProcessorOptions)
    (issues : List Issue) (st : ProcState) :
    ∃ t, (processPage env options st issues).log = st.log ++ t
      ∧ fetchCalls t = []
      ∧ (options.debugOnly = true → t.filter (fun e => e.isMutation) = []) := by
  induction issues generalizing st with
  | nil => exact ⟨[], by simp [processPage], rfl, fun _ => rfl⟩
  | cons issue rest ih =>
    obtain ⟨t1, ht1, hf1, hd1⟩ := handleIssue_log env options st issue
    obtain ⟨t2, ht2, hf2, hd2⟩ := ih (handleIssue env options st issue)
    refine ⟨t1 ++ t2, ?_, ?_, ?_⟩
    · show (processPage env options (handleIssue env options st issue) rest).log = _
      rw [ht2, ht1, List.append_assoc]
    · rw [fetchCalls_append, hf1, hf2]
      rfl
    · intro hdbg
      rw [List.filter_append, hd1 hdbg, hd2 hdbg]
      rfl

/-- An item hitting any of the four skip checks is left entirely alone:
same state, no wire call, no bookkeeping, no budget use. -/
theorem handleIssue_of_skip (env : Env) (options : IssueProcessorOptions)
    (st : ProcState) (issue : Issue)
    (h : (staleMessageFor options issue).isEmpty = true
       ∨ (issue.state == "closed") = true
       ∨ issue.locked = true
       ∨ (exemptLabelsFor options issue).any (fun l => isLabeled issue l) = true) :
    handleIssue env options st issue = st := by
  unfold handleIssue
  dsimp only
  rcases h with h | h | h | h <;> simp [h]

/-- An item passing the skip checks, not yet carrying the stale label, and
failing the recency check is freshly marked stale and then evaluated for
closure. -/
theorem handleIssue_of_fresh (env : Env) (options : IssueProcessorOptions)
    (st : ProcState) (issue : Issue)
    (hm : (staleMessageFor options issue).isEmpty = false)
    (hc : (issue.state == "closed") = false)
    (hl : issue.locked = false)
    (he : (exemptLabelsFor options issue).any (fun l => isLabeled issue l) = false)
    (hstale : isLabeled issue (staleLabelFor options issue) = false)
    (hshould : updatedSince env issue.updated_at options.daysBeforeStale = false) :
    handleIssue env options st issue =
      processStaleIssue env options
        (markStale env options issue (staleMessageFor options issue)
          (staleLabelFor options issue) st).1
        (staleLabelFor options issue)
        (markStale env options issue (staleMessageFor options issue)
          (staleLabelFor options issue) st).2 := by
  unfold handleIssue
  dsimp only
  simp [hm, hc, hl, he, hstale, hshould]

/-- An item passing the skip checks that already carries the stale label is
not re-marked: it goes straight to the closure evaluation. -/
theorem handleIssue_of_alreadyStale (env : Env) (options : IssueProcessorOptions)
    (st : ProcState) (issue : Issue)
    (hm : (staleMessageFor options issue).isEmpty = false)
    (hc : (issue.state == "closed") = false)
    (hl : issue.locked = false)
    (he : (exemptLabelsFor options issue).any (fun l => isLabeled issue l) = false)
    (hstale : isLabeled issue (staleLabelFor options issue) = true) :
    handleIssue env options st issue =
      processStaleIssue env options issue (staleLabelFor options issue) st := by
  unfold handleIssue
  dsimp only
  simp [hm, hc, hl, he, hstale]

/-- An item passing the skip checks that is neither stale nor should be is
left entirely alone. -/
theorem handleIssue_of_active (env : Env) (options : IssueProcessorOptions)
    (st : ProcState) (issue : Issue)
    (hm : (staleMessageFor options issue).isEmpty = false)
    (hc : (issue.state == "closed") = false)
    (hl : issue.locked = false)
    (he : (exemptLabelsFor options issue).any (fun l => isLabeled issue l) = false)
    (hstale : isLabeled issue (staleLabelFor options issue) = false)
    (hshould : updatedSince env issue.updated_at options.daysBeforeStale = true) :
    handleIssue env options st issue = st := by
  unfold handleIssue
  dsimp only
  simp [hm, hc, hl, he, hstale, hshould]

/-- The issue value `markStale` hands back: the input issue with its
`updated_at` rewritten to `now - daysBeforeStale` days, rendered. -/
theorem markStale_fst (env : Env) (options : IssueProcessorOptions) (issue : Issue)
    (staleMessage staleLabel : String) (st : ProcState) :
    (markStale env options issue staleMessage staleLabel st).1 =
      { issue with updated_at :=
          env.render (env.now - 1000 * 60 * 60 * 24 * options.daysBeforeStale) } := by
  unfold markStale
  dsimp only
  split <;> rfl

/-- The bookkeeping effect of `markStale`, independent of dry-run. -/
theorem markStale_snd_core (env : Env) (options : IssueProcessorOptions) (issue : Issue)
    (staleMessage staleLabel : String) (st : ProcState) :
    (markStale env options issue staleMessage staleLabel st).2.staleIssues =
        st.staleIssues ++ [(markStale env options issue staleMessage staleLabel st).1]
      ∧ (markStale env options issue staleMessage staleLabel st).2.closedIssues = st.closedIssues
      ∧ (markStale env options issue staleMessage staleLabel st).2.removedLabelIssues =
          st.removedLabelIssues := by
  unfold markStale
  dsimp only
  split <;> exact ⟨rfl, rfl, rfl⟩

/-- The page-fetched state `processIssues` builds before inspecting the
page: one budget unit spent, the fetch recorded. -/
def afterFetch (st : ProcState) (page : Nat) : ProcState :=
  { st with operationsLeft := st.operationsLeft - 1,
            log := st.log ++ [.listIssues page 100] }

theorem processIssues_of_empty (env : Env) (options : IssueProcessorOptions)
    (st : ProcState) (page : Nat) (h : (env.pages page).length ≤ 0) :
    processIssues env options st page =
      ((afterFetch st page).operationsLeft, afterFetch st page) := by
  rw [processIssues.eq_def]
  dsimp only
  rw [if_pos h]
  rfl

theorem processIssues_of_exhausted (env : Env) (options : IssueProcessorOptions)
    (st : ProcState) (page : Nat) (h1 : ¬ (env.pages page).length ≤ 0)
    (h2 : (processPage env options (afterFetch st page) (env.pages page)).operationsLeft ≤ 0) :
    processIssues env options st page =
      (0, processPage env options (afterFetch st page) (env.pages page)) := by
  rw [processIssues.eq_def]
  dsimp only
  unfold afterFetch at h2
  rw [if_neg h1, dif_pos h2]
  rfl

theorem processIssues_of_next (env : Env) (options : IssueProcessorOptions)
    (st : ProcState) (page : Nat) (h1 : ¬ (env.pages page).length ≤ 0)
    (h2 : ¬ (processPage env options (afterFetch st page) (env.pages page)).operationsLeft ≤ 0) :
    processIssues env options st page =
      processIssues env options (processPage env options (afterFetch st page) (env.pages page))
        (page + 1) := by
  rw [processIssues.eq_def]
  dsimp only
  unfold afterFetch at h2
  rw [if_neg h1, dif_neg h2]
  rfl

theorem afterFetch_operationsLeft (st : ProcState) (page : Nat) :
    (afterFetch st page).operationsLeft = st.operationsLeft - 1 := rfl

theorem fetchCalls_afterFetch (st : ProcState) (page : Nat) :
    fetchCalls (afterFetch st page).log = fetchCalls st.log ++ [(page, 100)] := by
  show fetchCalls (st.log ++ [ExtCall.listIssues page 100]) = _
  rw [fetchCalls_append]
  rfl

theorem processPage_fetchCalls (env : Env) (options : IssueProcessorOptions)
    (issues : List Issue) (st : ProcState) :
    fetchCalls (processPage env options st issues).log = fetchCalls st.log := by
  obtain ⟨t, ht, hf, _⟩ := processPage_log env options issues st
  rw [ht, fetchCalls_append, hf, List.append_nil]

/-- The trace property of a `processIssues` run from an arbitrary state:
some positive number `k` of consecutive pages is fetched (all with page
size 100), every page before the last was nonempty, the last page was
empty or the budget was exhausted after processing it, and the budget
dropped by at least one unit per fetched page. -/
theorem processIssues_trace_aux (env : Env) (options : IssueProcessorOptions)
    (n : Nat) : ∀ (st : ProcState) (page : Nat), st.operationsLeft.toNat ≤ n →
    ∃ k : Nat, 1 ≤ k
      ∧ fetchCalls (processIssues env options st page).2.log
          = fetchCalls st.log ++ (List.range' page k).map (fun p => (p, 100))
      ∧ (∀ i : Nat, i + 1 < k → env.pages (page + i) ≠ [])
      ∧ (env.pages (page + (k - 1)) = []
         ∨ (env.pages (page + (k - 1)) ≠ []
            ∧ (processIssues env options st page).2.operationsLeft ≤ 0))
      ∧ (processIssues env options st page).2.operationsLeft ≤ st.operationsLeft - (k : Int) := by
  induction n with
  | zero =>
    intro st page hn
    by_cases hemp : (env.pages page).length ≤ 0
    · refine ⟨1, le_refl 1, ?_, ?_, ?_, ?_⟩
      · rw [processIssues_of_empty env options st page hemp, fetchCalls_afterFetch]
        rfl
      · intro i hi
        omega
      · left
        simpa using List.eq_nil_of_length_eq_zero (Nat.le_zero.mp hemp)
      · rw [processIssues_of_empty env options st page hemp, afterFetch_operationsLeft]
        omega
    · have hexh : (processPage env options (afterFetch st page) (env.pages page)).operationsLeft ≤ 0 := by
        have h1 := processPage_operationsLeft_le env options (env.pages page) (afterFetch st page)
        rw [afterFetch_operationsLeft] at h1
        omega
      refine ⟨1, le_refl 1, ?_, ?_, ?_, ?_⟩
      · rw [processIssues_of_exhausted env options st page hemp hexh, processPage_fetchCalls,
          fetchCalls_afterFetch]
        rfl
      · intro i hi
        omega
      · right
        constructor
        · simpa using fun hcon => hemp (by simp [hcon])
        · rw [processIssues_of_exhausted env options st page hemp hexh]
          exact hexh
      · rw [processIssues_of_exhausted env options st page hemp hexh]
        dsimp only
        have h1 := processPage_operationsLeft_le env options (env.pages page) (afterFetch st page)
        rw [afterFetch_operationsLeft] at h1
        omega
  | succ m ih =>
    intro st page hn
    by_cases hemp : (env.pages page).length ≤ 0
    · refine ⟨1, le_refl 1, ?_, ?_, ?_, ?_⟩
      · rw [processIssues_of_empty env options st page hemp, fetchCalls_afterFetch]
        rfl
      · intro i hi
        omega
      · left
        simpa using List.eq_nil_of_length_eq_zero (Nat.le_zero.mp hemp)
      · rw [processIssues_of_empty env options st page hemp, afterFetch_operationsLeft]
        omega
    · by_cases hexh : (processPage env options (afterFetch st page) (env.pages page)).operationsLeft ≤ 0
      · refine ⟨1, le_refl 1, ?_, ?_, ?_, ?_⟩
        · rw [processIssues_of_exhausted env options st page hemp hexh, processPage_fetchCalls,
            fetchCalls_afterFetch]
          rfl
        · intro i hi
          omega
        · right
          constructor
          · simpa using fun hcon => hemp (by simp [hcon])
          · rw [processIssues_of_exhausted env options st page hemp hexh]
            exact hexh
        · rw [processIssues_of_exhausted env options st page hemp hexh]
          dsimp only
          have h1 := processPage_operationsLeft_le env options (env.pages page) (afterFetch st page)
          rw [afterFetch_operationsLeft] at h1
          omega
      · have hle := processPage_operationsLeft_le env options (env.pages page) (afterFetch st page)
        rw [afterFetch_operationsLeft] at hle
        have hmeas : (processPage env options (afterFetch st page) (env.pages page)).operationsLeft.toNat ≤ m := by
          omega
        obtain ⟨k, hk1, hfetch, hmid, hlast, hbud⟩ :=
          ih (processPage env options (afterFetch st page) (env.pages page)) (page + 1) hmeas
        rw [processIssues_of_next env options st page hemp hexh]
        refine ⟨k + 1, by omega, ?_, ?_, ?_, ?_⟩
        · rw [hfetch, processPage_fetchCalls, fetchCalls_afterFetch, List.range'_succ]
          simp [List.append_assoc]
        · intro i hi
          match i with
          | 0 =>
            simpa using fun hcon => hemp (by simp [hcon])
          | j + 1 =>
            have hj : j + 1 < k := by omega
            have := hmid j hj
            simpa [Nat.add_assoc, Nat.add_comm 1 j] using this
        · have hidx : page + (k + 1 - 1) = page + 1 + (k - 1) := by omega
          rw [hidx]
          exact hlast
        · push_cast
          omega

/-- Two run states that agree on everything the decision logic and the
bookkeeping can observe: budget and the three lists (the ghost log may
differ). -/
def sameCore (a b : ProcState) : Prop :=
  a.operationsLeft = b.operationsLeft ∧ a.staleIssues = b.staleIssues
    ∧ a.closedIssues = b.closedIssues ∧ a.removedLabelIssues = b.removedLabelIssues

theorem staleMessageFor_setDebug (options : IssueProcessorOptions) (b : Bool) (issue : Issue) :
    staleMessageFor { options with debugOnly := b } issue = staleMessageFor options issue := rfl

theorem staleLabelFor_setDebug (options : IssueProcessorOptions) (b : Bool) (issue : Issue) :
    staleLabelFor { options with debugOnly := b } issue = staleLabelFor options issue := rfl

theorem exemptLabelsFor_setDebug (options : IssueProcessorOptions) (b : Bool) (issue : Issue) :
    exemptLabelsFor { options with debugOnly := b } issue = exemptLabelsFor options issue := rfl

theorem unstalesOf_setDebug (env : Env) (options : IssueProcessorOptions) (b : Bool)
    (issue : Issue) (staleLabel : String) :
    unstalesOf env { options with debugOnly := b } issue staleLabel =
      unstalesOf env options issue staleLabel := rfl

theorem closesOf_setDebug (env : Env) (options : IssueProcessorOptions) (b : Bool)
    (issue : Issue) (staleLabel : String) :
    closesOf env { options with debugOnly := b } issue staleLabel =
      closesOf env options issue staleLabel := rfl

theorem markStale_fst_setDebug (env : Env) (options : IssueProcessorOptions) (b : Bool)
    (issue : Issue) (staleMessage staleLabel : String) (st₁ st₂ : ProcState) :
    (markStale env { options with debugOnly := b } issue staleMessage staleLabel st₁).1 =
      (markStale env options issue staleMessage staleLabel st₂).1 := by
  rw [markStale_fst, markStale_fst]

theorem markStale_core_setDebug (env : Env) (options : IssueProcessorOptions) (b : Bool)
    (issue : Issue) (staleMessage staleLabel : String) (st₁ st₂ : ProcState)
    (h : sameCore st₁ st₂) :
    sameCore (markStale env { options with debugOnly := b } issue staleMessage staleLabel st₁).2
      (markStale env options issue staleMessage staleLabel st₂).2 := by
  obtain ⟨h1, h2, h3, h4⟩ := h
  unfold markStale sameCore
  dsimp only
  split_ifs <;> exact ⟨by rw [h1], by rw [h2], h3, h4⟩

theorem processStaleIssue_core_setDebug (env : Env) (options : IssueProcessorOptions)
    (b : Bool) (issue : Issue) (staleLabel : String) (st₁ st₂ : ProcState)
    (h : sameCore st₁ st₂) :
    sameCore (processStaleIssue env { options with debugOnly := b } issue staleLabel st₁)
      (processStaleIssue env options issue staleLabel st₂) := by
  obtain ⟨h1, h2, h3, h4⟩ := h
  rw [processStaleIssue_spec, processStaleIssue_spec]
  unfold sameCore
  refine ⟨?_, ?_, ?_, ?_⟩ <;>
    simp [h1, h2, h3, h4, unstalesOf_setDebug, closesOf_setDebug]

theorem handleIssue_core_setDebug (env : Env) (options : IssueProcessorOptions) (b : Bool)
    (st₁ st₂ : ProcState) (issue : Issue) (h : sameCore st₁ st₂) :
    sameCore (handleIssue env { options with debugOnly := b } st₁ issue)
      (handleIssue env options st₂ issue) := by
  unfold handleIssue
  dsimp only
  rw [staleMessageFor_setDebug, staleLabelFor_setDebug, exemptLabelsFor_setDebug]
  split_ifs with h1 h2 h3 h4 h5 h6
  · exact h
  · exact h
  · exact h
  · exact h
  · rw [markStale_fst_setDebug env options b issue (staleMessageFor options issue)
      (staleLabelFor options issue) st₁ st₂]
    exact processStaleIssue_core_setDebug env options b _ _ _ _
      (markStale_core_setDebug env options b issue _ _ st₁ st₂ h)
  · exact processStaleIssue_core_setDebug env options b _ _ _ _ h
  · exact h

theorem processPage_core_setDebug (env : Env) (options : IssueProcessorOptions) (b : Bool)
    (issues : List Issue) (st₁ st₂ : ProcState) (h : sameCore st₁ st₂) :
    sameCore (processPage env { options with debugOnly := b } st₁ issues)
      (processPage env options st₂ issues) := by
  induction issues generalizing st₁ st₂ with
  | nil => exact h
  | cons issue rest ih =>
    exact ih (handleIssue env { options with debugOnly := b } st₁ issue)
      (handleIssue env options st₂ issue) (handleIssue_core_setDebug env options b st₁ st₂ issue h)

theorem afterFetch_core (st₁ st₂ : ProcState) (page : Nat) (h : sameCore st₁ st₂) :
    sameCore (afterFetch st₁ page) (afterFetch st₂ page) := by
  obtain ⟨h1, h2, h3, h4⟩ := h
  exact ⟨by unfold afterFetch; dsimp only; rw [h1], h2, h3, h4⟩

/-- A run with the dry-run toggle flipped makes the same decisions: equal
return value, budget, and bookkeeping lists. -/
theorem processIssues_core_setDebug (env : Env) (options : IssueProcessorOptions) (b : Bool)
    (n : Nat) : ∀ (st₁ st₂ : ProcState) (page : Nat), st₁.operationsLeft.toNat ≤ n →
    sameCore st₁ st₂ →
    (processIssues env { options with debugOnly := b } st₁ page).1 =
        (processIssues env options st₂ page).1
      ∧ sameCore (processIssues env { options with debugOnly := b } st₁ page).2
          (processIssues env options st₂ page).2 := by
  induction n with
  | zero =>
    intro st₁ st₂ page hn h
    by_cases hemp : (env.pages page).length ≤ 0
    · rw [processIssues_of_empty env _ st₁ page hemp, processIssues_of_empty env options st₂ page hemp]
      refine ⟨?_, afterFetch_core st₁ st₂ page h⟩
      rw [afterFetch_operationsLeft, afterFetch_operationsLeft, h.1]
    · have hcore := processPage_core_setDebug env options b (env.pages page)
        (afterFetch st₁ page) (afterFetch st₂ page) (afterFetch_core st₁ st₂ page h)
      have hexh₁ : (processPage env { options with debugOnly := b } (afterFetch st₁ page)
          (env.pages page)).operationsLeft ≤ 0 := by
        have hle := processPage_operationsLeft_le env { options with debugOnly := b }
          (env.pages page) (afterFetch st₁ page)
        rw [afterFetch_operationsLeft] at hle
        omega
      have hexh₂ : (processPage env options (afterFetch st₂ page)
          (env.pages page)).operationsLeft ≤ 0 := by
        rw [← hcore.1]
        exact hexh₁
      rw [processIssues_of_exhausted env _ st₁ page hemp hexh₁,
        processIssues_of_exhausted env options st₂ page hemp hexh₂]
      exact ⟨rfl, hcore⟩
  | succ m ih =>
    intro st₁ st₂ page hn h
    by_cases hemp : (env.pages page).length ≤ 0
    · rw [processIssues_of_empty env _ st₁ page hemp, processIssues_of_empty env options st₂ page hemp]
      refine ⟨?_, afterFetch_core st₁ st₂ page h⟩
      rw [afterFetch_operationsLeft, afterFetch_operationsLeft, h.1]
    · have hcore := processPage_core_setDebug env options b (env.pages page)
        (afterFetch st₁ page) (afterFetch st₂ page) (afterFetch_core st₁ st₂ page h)
      by_cases hexh₁ : (processPage env { options with debugOnly := b } (afterFetch st₁ page)
          (env.pages page)).operationsLeft ≤ 0
      · have hexh₂ : (processPage env options (afterFetch st₂ page)
            (env.pages page)).operationsLeft ≤ 0 := by
          rw [← hcore.1]
          exact hexh₁
        rw [processIssues_of_exhausted env _ st₁ page hemp hexh₁,
          processIssues_of_exhausted env options st₂ page hemp hexh₂]
        exact ⟨rfl, hcore⟩
      · have hexh₂ : ¬ (processPage env options (afterFetch st₂ page)
            (env.pages page)).operationsLeft ≤ 0 := by
          rw [← hcore.1]
          exact hexh₁
        rw [processIssues_of_next env _ st₁ page hemp hexh₁,
          processIssues_of_next env options st₂ page hemp hexh₂]
        have hle := processPage_operationsLeft_le env { options with debugOnly := b }
          (env.pages page) (afterFetch st₁ page)
        rw [afterFetch_operationsLeft] at hle
        exact ih _ _ (page + 1) (by omega) hcore

/-- A dry run never appends a mutation call to the log. -/
theorem processIssues_dry_log (env : Env) (options : IssueProcessorOptions)
    (n : Nat) : ∀ (st : ProcState) (page : Nat), st.operationsLeft.toNat ≤ n →
    options.debugOnly = true →
    ∃ t, (processIssues env options st page).2.log = st.log ++ t
      ∧ t.filter (fun e => e.isMutation) = [] := by
  induction n with
  | zero =>
    intro st page hn hdbg
    by_cases hemp : (env.pages page).length ≤ 0
    · rw [processIssues_of_empty env options st page hemp]
      exact ⟨[ExtCall.listIssues page 100], rfl, rfl⟩
    · have hexh : (processPage env options (afterFetch st page) (env.pages page)).operationsLeft ≤ 0 := by
        have hle := processPage_operationsLeft_le env options (env.pages page) (afterFetch st page)
        rw [afterFetch_operationsLeft] at hle
        omega
      rw [processIssues_of_exhausted env options st page hemp hexh]
      obtain ⟨t, ht, _, hd⟩ := processPage_log env options (env.pages page) (afterFetch st page)
      refine ⟨ExtCall.listIssues page 100 :: t, ?_, ?_⟩
      · dsimp only
        rw [ht]
        show (st.log ++ [ExtCall.listIssues page 100]) ++ t = _
        rw [List.append_assoc]
        rfl
      · rw [List.filter_cons, hd hdbg]
        rfl
  | succ m ih =>
    intro st page hn hdbg
    by_cases hemp : (env.pages page).length ≤ 0
    · rw [processIssues_of_empty env options st page hemp]
      exact ⟨[ExtCall.listIssues page 100], rfl, rfl⟩
    · obtain ⟨t, ht, _, hd⟩ := processPage_log env options (env.pages page) (afterFetch st page)
      by_cases hexh : (processPage env options (afterFetch st page) (env.pages page)).operationsLeft ≤ 0
      · rw [processIssues_of_exhausted env options st page hemp hexh]
        refine ⟨ExtCall.listIssues page 100 :: t, ?_, ?_⟩
        · dsimp only
          rw [ht]
          show (st.log ++ [ExtCall.listIssues page 100]) ++ t = _
          rw [List.append_assoc]
          rfl
        · rw [List.filter_cons, hd hdbg]
          rfl
      · rw [processIssues_of_next env options st page hemp hexh]
        have hle := processPage_operationsLeft_le env options (env.pages page) (afterFetch st page)
        rw [afterFetch_operationsLeft] at hle
        obtain ⟨t2, ht2, hd2⟩ := ih (processPage env options (afterFetch st page) (env.pages page))
          (page + 1) (by omega) hdbg
        refine ⟨ExtCall.listIssues page 100 :: (t ++ t2), ?_, ?_⟩
        · rw [ht2, ht]
          show ((st.log ++ [ExtCall.listIssues page 100]) ++ t) ++ t2 = _
          rw [List.append_assoc, List.append_assoc]
          rfl
        · rw [List.filter_cons, List.filter_append, hd hdbg, hd2]
          rfl

theorem length_filter_pos_iff {α : Type} (p : α → Bool) (l : List α) :
    0 < (l.filter p).length ↔ ∃ a ∈ l, p a = true := by
  induction l with
  | nil => simp
  | cons a l ih =>
    by_cases h : p a <;> simp [List.filter_cons, h, ih]

theorem find?_reverse_eq {α : Type} (p : α → Bool) (l : List α) :
    l.reverse.find? p = (l.filter p).getLast? := by
  induction l using List.reverseRecOn with
  | nil => rfl
  | append_singleton xs x ih =>
    by_cases h : p x
    · rw [List.reverse_append, List.reverse_singleton, List.singleton_append,
        List.find?_cons_of_pos _ h, List.filter_append]
      simp only [List.filter_cons, List.filter_nil, if_pos h]
      rw [List.getLast?_concat]
    · rw [List.reverse_append, List.reverse_singleton, List.singleton_append,
        List.find?_cons_of_neg _ h, List.filter_append]
      simp only [List.filter_cons, List.filter_nil, if_neg h]
      rw [List.append_nil, ih]

/-- C10: `getLabelCreationDate` returns the `created_at` of the last event
in the history that is a `labeled` event whose label name equals the
searched name under exact (`==`, case- and accent-sensitive) string
equality — i.e. the most recent such event under the API's chronological
event order — and `none` when no such event exists; it always spends one
budget unit and issues exactly the label-event-history read. -/
theorem c10_label_creation_date (env : Env) (issue : Issue) (label : String)
    (st : ProcState) :
    getLabelCreationDate env issue label st =
      (((env.events issue.number).filter
          (fun e => e.event == "labeled" && e.label.name == label)).getLast?.map
          (fun e => e.created_at),
       { st with operationsLeft := st.operationsLeft - 1,
                 log := st.log ++ [.listEvents issue.number] }) := by
  unfold getLabelCreationDate findLabelCreationDate
  dsimp only
  rw [find?_reverse_eq]

/-- Follows the spec's words for the label comparison ("case-insensitive,
accent-insensitive name equality"): strips the diacritics of the Latin-1
lowercase letters after case folding, so that names differing only in case
or accents compare equal. -/
def stripAccent (c : Char) : Char :=
  let n := c.toNat
  if 224 ≤ n ∧ n ≤ 229 then 'a'
  else if n = 231 then 'c'
  else if 232 ≤ n ∧ n ≤ 235 then 'e'
  else if 236 ≤ n ∧ n ≤ 239 then 'i'
  else if n = 241 then 'n'
  else if 242 ≤ n ∧ n ≤ 246 then 'o'
  else if 249 ≤ n ∧ n ≤ 252 then 'u'
  else if n = 253 ∨ n = 255 then 'y'
  else c

/-- Follows the spec's words: case-insensitive and accent-insensitive
string equality. -/
def specLabelEqCaseAccentInsensitive (a b : String) : Bool :=
  (⟨(jsCaseFold a).data.map stripAccent⟩ : String) == ⟨(jsCaseFold b).data.map stripAccent⟩

/-- The membership test the spec describes: some label of the issue equals
the name under case- and accent-insensitive equality. -/
def specIsLabeled (issue : Issue) (label : String) : Bool :=
  issue.labels.any (fun l => specLabelEqCaseAccentInsensitive label l.name)

/-- A concrete issue carrying the accented label name. -/
def issueAccent : Issue :=
  { title := "t", number := 1, updated_at := "2020-01-01", labels := [{ name := "é" }],
    pull_request := false, state := "open", locked := false }

/-- C6 counterexample: the claim says the membership test treats names as
equal iff they are equal ignoring both case and accents.  For the issue
labelled `é` and the searched name `e` the spec-side equality holds, but the
source's `localeCompare(..., {sensitivity: 'accent'})` test distinguishes
the accent, so `isLabeled` answers false and the claimed equivalence fails
at this input. -/
theorem c6_label_match_counterexample :
    ¬ (isLabeled issueAccent "e" = true ↔ specIsLabeled issueAccent "e" = true) := by
  decide

/-- C6 amended: the membership test used for the exempt-label skip and the
stale-label check treats two label names as equal iff they are equal
ignoring case only — accents and diacritics remain significant. -/
theorem c6_label_match_amended (issue : Issue) (label : String) :
    isLabeled issue label = true ↔ ∃ l ∈ issue.labels, jsCaseFold label = jsCaseFold l.name := by
  unfold isLabeled
  rw [decide_eq_true_eq, length_filter_pos_iff]
  constructor
  · rintro ⟨l, hl, he⟩
    exact ⟨l, hl, by simpa [localeEqAccent] using he⟩
  · rintro ⟨l, hl, he⟩
    exact ⟨l, hl, by simpa [localeEqAccent] using he⟩

/-- A concrete environment whose page source is empty. -/
def envC : Env :=
  { now := 0, parseTime := fun _ => 0, render := fun _ => "", actor := "bot",
    pages := fun _ => [], comments := fun _ _ => [], events := fun _ => [] }

/-- A concrete open, unlabelled issue. -/
def issueC : Issue :=
  { title := "c", number := 7, updated_at := "2020-01-01", labels := [],
    pull_request := false, state := "open", locked := false }

/-- A concrete starting state with budget 10. -/
def stC : ProcState :=
  { operationsLeft := 10, staleIssues := [], closedIssues := [],
    removedLabelIssues := [], log := [] }

/-- A concrete configuration: nonempty messages, no exemptions, thresholds
zero. -/
def optsC : IssueProcessorOptions :=
  { repoToken := "", staleIssueMessage := "msg", stalePrMessage := "msg",
    daysBeforeStale := 0, daysBeforeClose := 0, staleIssueLabel := "Stale",
    exemptIssueLabels := "", stalePrLabel := "Stale", exemptPrLabels := "",
    onlyLabels := "", operationsPerRun := 10, removeStaleWhenUpdated := false,
    debugOnly := false }

/-- A concrete environment whose clock parse maps the rendered synthetic
timestamp back to its instant and treats every other timestamp as ancient. -/
def envW : Env :=
  { now := 0, parseTime := fun s => if s == "X" then 0 else -100000000,
    render := fun _ => "X", actor := "bot", pages := fun _ => [],
    comments := fun _ _ => [], events := fun _ => [] }

/-- A concrete open issue whose last update parses as ancient under `envW`. -/
def issueW : Issue :=
  { title := "w", number := 3, updated_at := "old", labels := [],
    pull_request := false, state := "open", locked := false }

/-- A concrete closed issue. -/
def issueClosedC : Issue :=
  { issueC with number := 8, state := "closed" }

/-- A concrete issue already carrying the stale label. -/
def issueStaleC : Issue :=
  { issueC with number := 9, labels := [{ name := "Stale" }] }

/-- C1 counterexample: the claim says the comments-since fetch decrements
the shared budget by one.  At this concrete input the fetch is attempted
(the wire call is recorded) yet the budget is not decremented: the source's
`listIssueComments` has no `operationsLeft` decrement. -/
theorem c1_comments_fetch_counterexample :
    (hasCommentsSince envC issueC "2020-06-01" stC).2.log =
        stC.log ++ [ExtCall.listComments 7 "2020-06-01"]
      ∧ ¬ (hasCommentsSince envC issueC "2020-06-01" stC).2.operationsLeft =
          stC.operationsLeft - 1 := by
  constructor
  · rfl
  · decide

/-- C1 amended: every attempted external call decrements the budget at its
call site by its documented cost — page fetch 1, stale transition
(comment + label add) 2, close 1, label-remove 1, label-event-history
fetch 1 — unconditionally on the call's outcome, but the comments-since
fetch is the exception among external reads: it does not touch the budget. -/
theorem c1_operation_costs (env : Env) (options : IssueProcessorOptions)
    (st : ProcState) (issue : Issue) (staleMessage staleLabel sinceDate : String)
    (page : Nat) :
    (markStale env options issue staleMessage staleLabel st).2.operationsLeft =
        st.operationsLeft - 2
      ∧ (closeIssue options issue st).operationsLeft = st.operationsLeft - 1
      ∧ (removeLabel options issue staleLabel st).operationsLeft = st.operationsLeft - 1
      ∧ (getLabelCreationDate env issue staleLabel st).2.operationsLeft =
          st.operationsLeft - 1
      ∧ (hasCommentsSince env issue sinceDate st).2.operationsLeft = st.operationsLeft
      ∧ ((env.pages page).length ≤ 0 →
          (processIssues env options st page).2.operationsLeft = st.operationsLeft - 1) := by
  refine ⟨markStale_operationsLeft env options issue staleMessage staleLabel st,
    closeIssue_operationsLeft options issue st,
    removeLabel_operationsLeft options issue staleLabel st,
    getLabelCreationDate_operationsLeft env issue staleLabel st,
    hasCommentsSince_operationsLeft env issue sinceDate st, ?_⟩
  intro h
  rw [processIssues_of_empty env options st page h, afterFetch_operationsLeft]

theorem c1_operation_costs_witness :
    (processIssues envC optsC stC 1).2.operationsLeft = stC.operationsLeft - 1 :=
  (c1_operation_costs envC optsC stC issueC "m" "l" "s" 1).2.2.2.2.2 (by decide)

/-- C2: a full run fetches pages 1, 2, …, k for some k ≥ 1, each with page
size 100 and each consuming (at least, exactly for the fetch itself) one
budget unit; every page before the last was nonempty (the driver proceeds
to page+1 otherwise), and the run stops exactly because the last fetched
page was empty or because the budget was exhausted after fully processing a
nonempty page (`processPage` folds over the entire page, so it never stops
mid-page). -/
theorem c2_batch_driver_trace (env : Env) (options : IssueProcessorOptions) :
    ∃ k : Nat, 1 ≤ k
      ∧ fetchCalls (runProcess env options).2.log = (List.range' 1 k).map (fun p => (p, 100))
      ∧ (∀ i : Nat, i + 1 < k → env.pages (1 + i) ≠ [])
      ∧ (env.pages (1 + (k - 1)) = []
         ∨ (env.pages (1 + (k - 1)) ≠ []
            ∧ (runProcess env options).2.operationsLeft ≤ 0))
      ∧ (runProcess env options).2.operationsLeft ≤ options.operationsPerRun - (k : Int) := by
  obtain ⟨k, h1, h2, h3, h4, h5⟩ := processIssues_trace_aux env options
    (initialState options).operationsLeft.toNat (initialState options) 1 (le_refl _)
  refine ⟨k, h1, ?_, h3, h4, h5⟩
  rw [runProcess] at *
  simpa using h2

/-- C3: whenever an item is freshly marked stale (skip checks pass, no stale
label yet, recency check fails), `markStale` rewrites the in-memory
`updated_at` to the render of exactly `now - daysBeforeStale * 86400000` ms
(`1000*60*60*24` ms per day), this happens for every configuration
including dry-run (`options.debugOnly` is arbitrary here), and the same
pass evaluates close-eligibility (`processStaleIssue`) against the
rewritten issue. -/
theorem c3_synthetic_timestamp (env : Env) (options : IssueProcessorOptions)
    (st : ProcState) (issue : Issue)
    (hm : (staleMessageFor options issue).isEmpty = false)
    (hc : (issue.state == "closed") = false)
    (hl : issue.locked = false)
    (he : (exemptLabelsFor options issue).any (fun l => isLabeled issue l) = false)
    (hstale : isLabeled issue (staleLabelFor options issue) = false)
    (hshould : updatedSince env issue.updated_at options.daysBeforeStale = false) :
    handleIssue env options st issue =
      processStaleIssue env options
        { issue with updated_at :=
            env.render (env.now - 1000 * 60 * 60 * 24 * options.daysBeforeStale) }
        (staleLabelFor options issue)
        (markStale env options issue (staleMessageFor options issue)
          (staleLabelFor options issue) st).2
    ∧ (handleIssue env options st issue).staleIssues =
        st.staleIssues ++
          [{ issue with
              updated_at := env.render (env.now - 1000 * 60 * 60 * 24 * options.daysBeforeStale) }] := by
  have hfresh := handleIssue_of_fresh env options st issue hm hc hl he hstale hshould
  constructor
  · rw [hfresh, markStale_fst]
  · rw [hfresh, processStaleIssue_spec]
    dsimp only
    rw [(markStale_snd_core env options issue (staleMessageFor options issue)
      (staleLabelFor options issue) st).1, markStale_fst]

theorem c3_synthetic_timestamp_witness :
    (handleIssue envW { optsC with debugOnly := true } stC issueW).staleIssues =
      stC.staleIssues ++
        [{ issueW with
            updated_at := envW.render (envW.now - 1000 * 60 * 60 * 24 *
              ({ optsC with debugOnly := true } : IssueProcessorOptions).daysBeforeStale) }] :=
  (c3_synthetic_timestamp envW { optsC with debugOnly := true } stC issueW
    (by decide) (by decide) (by decide) (by decide) (by decide) (by decide)).2

/-- A clock whose rendering of the synthetic instant re-parses one
millisecond earlier than the instant itself — the direction real
`Date.prototype.toString`'s second-truncation guarantees — while every
other timestamp parses as ancient. -/
def envT : Env :=
  { now := 1000, parseTime := fun s => if s == "Y" then 999 else -100000000,
    render := fun _ => "Y", actor := "bot", pages := fun _ => [],
    comments := fun _ _ => [], events := fun _ => [] }

/-- A concrete open, unlabelled issue whose last update parses as ancient
under `envT`. -/
def issueT : Issue :=
  { title := "s", number := 4, updated_at := "old", labels := [],
    pull_request := false, state := "open", locked := false }

/-- C5 counterexample: the claim says an item newly transitioned to Staled
is never also transitioned to Closed in the same evaluation.  With
`daysBeforeClose = 0` and a rendered synthetic timestamp that re-parses one
millisecond before its instant (as the platform's second-truncating `Date`
rendering does), this single evaluation records the item both in
`staleIssues` (fresh Staled transition) and in `closedIssues` (Closed
transition) — the immediate close the source comment at lines 307-311
documents as intended. -/
theorem c5_same_pass_close_counterexample :
    (handleIssue envT optsC stC issueT).staleIssues =
        [{ issueT with updated_at := "Y" }]
      ∧ (handleIssue envT optsC stC issueT).closedIssues =
        [{ issueT with updated_at := "Y" }] := by
  exact ⟨rfl, rfl⟩

/-- C5 amended: a single evaluation never both freshly marks an item stale
and closes it, provided the clock parse of the rendered synthetic
timestamp equals its instant exactly (hypothesis `hrt`): then the
synthetic timestamp makes `hasUpdate` true whenever `daysBeforeClose ≥ 0`,
and closing is disabled otherwise, so the evaluation leaves `closedIssues`
untouched.  When that round trip loses precision the same pass can close a
freshly staled item at `daysBeforeClose = 0`, as the counterexample
shows. -/
theorem c5_no_fresh_stale_and_close (env : Env) (options : IssueProcessorOptions)
    (st : ProcState) (issue : Issue)
    (hstale : isLabeled issue (staleLabelFor options issue) = false)
    (hrt : env.parseTime (env.render (env.now - 1000 * 60 * 60 * 24 * options.daysBeforeStale))
         = env.now - 1000 * 60 * 60 * 24 * options.daysBeforeStale) :
    (handleIssue env options st issue).closedIssues = st.closedIssues := by
  by_cases hm : (staleMessageFor options issue).isEmpty = true
  · rw [handleIssue_of_skip env options st issue (Or.inl hm)]
  · by_cases hc : (issue.state == "closed") = true
    · rw [handleIssue_of_skip env options st issue (Or.inr (Or.inl hc))]
    · by_cases hl : issue.locked = true
      · rw [handleIssue_of_skip env options st issue (Or.inr (Or.inr (Or.inl hl)))]
      · by_cases he : (exemptLabelsFor options issue).any (fun l => isLabeled issue l) = true
        · rw [handleIssue_of_skip env options st issue (Or.inr (Or.inr (Or.inr he)))]
        · by_cases hshould : updatedSince env issue.updated_at options.daysBeforeStale = true
          · rw [handleIssue_of_active env options st issue (by simpa using hm)
              (by simpa using hc) (by simpa using hl) (by simpa using he) hstale hshould]
          · rw [handleIssue_of_fresh env options st issue (by simpa using hm)
              (by simpa using hc) (by simpa using hl) (by simpa using he) hstale
              (by simpa using hshould), processStaleIssue_spec]
            dsimp only
            have hclose : closesOf env options
                (markStale env options issue (staleMessageFor options issue)
                  (staleLabelFor options issue) st).1
                (staleLabelFor options issue) = false := by
              rw [markStale_fst]
              unfold closesOf hasUpdateOf updatedSince
              dsimp only
              rw [hrt]
              rcases lt_or_le options.daysBeforeClose 0 with hdbc | hdbc
              · rw [decide_eq_true hdbc, Bool.not_true, Bool.false_and]
              · have hle : env.now - (env.now - 1000 * 60 * 60 * 24 * options.daysBeforeStale)
                    ≤ 1000 * 60 * 60 * 24 * (options.daysBeforeClose + options.daysBeforeStale) := by
                  omega
                rw [decide_eq_true hle, Bool.not_true, Bool.and_false, Bool.and_false]
            rw [hclose, if_neg Bool.false_ne_true, List.append_nil]
            exact (markStale_snd_core env options issue (staleMessageFor options issue)
              (staleLabelFor options issue) st).2.1

theorem c5_no_fresh_stale_and_close_witness :
    (handleIssue envW optsC stC issueW).closedIssues = stC.closedIssues :=
  c5_no_fresh_stale_and_close envW optsC stC issueW (by decide) (by decide)

/-- C7: an item whose type-specific stale message is empty, or whose state
is closed, or which is locked, or which carries an exempt label under the
locale match, is skipped with a completely unchanged state: no wire call
logged, no bookkeeping entry, no budget decrement. -/
theorem c7_skip_frame (env : Env) (options : IssueProcessorOptions)
    (st : ProcState) (issue : Issue)
    (h : (staleMessageFor options issue).isEmpty = true
       ∨ (issue.state == "closed") = true
       ∨ issue.locked = true
       ∨ (exemptLabelsFor options issue).any (fun l => isLabeled issue l) = true) :
    handleIssue env options st issue = st :=
  handleIssue_of_skip env options st issue h

theorem c7_skip_frame_witness :
    handleIssue envC optsC stC issueClosedC = stC :=
  c7_skip_frame envC optsC stC issueClosedC (Or.inr (Or.inl (by decide)))

/-- C9: an item that already carries the (type-appropriate) stale label is
never re-marked in an evaluation: no stale comment and no label-add wire
call is issued, and the `staleIssues` bookkeeping list is unchanged —
regardless of any new activity. -/
theorem c9_idempotent_stale (env : Env) (options : IssueProcessorOptions)
    (st : ProcState) (issue : Issue)
    (hstale : isLabeled issue (staleLabelFor options issue) = true) :
    (handleIssue env options st issue).log.filter (fun e => e.isStaleMarkCall) =
        st.log.filter (fun e => e.isStaleMarkCall)
      ∧ (handleIssue env options st issue).staleIssues = st.staleIssues := by
  by_cases hm : (staleMessageFor options issue).isEmpty = true
  · rw [handleIssue_of_skip env options st issue (Or.inl hm)]
    exact ⟨rfl, rfl⟩
  · by_cases hc : (issue.state == "closed") = true
    · rw [handleIssue_of_skip env options st issue (Or.inr (Or.inl hc))]
      exact ⟨rfl, rfl⟩
    · by_cases hl : issue.locked = true
      · rw [handleIssue_of_skip env options st issue (Or.inr (Or.inr (Or.inl hl)))]
        exact ⟨rfl, rfl⟩
      · by_cases he : (exemptLabelsFor options issue).any (fun l => isLabeled issue l) = true
        · rw [handleIssue_of_skip env options st issue (Or.inr (Or.inr (Or.inr he)))]
          exact ⟨rfl, rfl⟩
        · rw [handleIssue_of_alreadyStale env options st issue (by simpa using hm)
            (by simpa using hc) (by simpa using hl) (by simpa using he) hstale]
          obtain ⟨t, ht, _, hsm, _⟩ := processStaleIssue_log env options issue
            (staleLabelFor options issue) st
          constructor
          · rw [ht, List.filter_append, hsm, List.append_nil]
          · rw [processStaleIssue_spec]

theorem c9_idempotent_stale_witness :
    (handleIssue envC optsC stC issueStaleC).log.filter (fun e => e.isStaleMarkCall) =
        stC.log.filter (fun e => e.isStaleMarkCall)
      ∧ (handleIssue envC optsC stC issueStaleC).staleIssues = stC.staleIssues :=
  c9_idempotent_stale envC optsC stC issueStaleC (by decide)

/-- The Closed transition fires iff closing is enabled, no qualifying
comment exists (conservatively including an empty application timestamp),
and the last update is older than the combined threshold. -/
theorem closesOf_iff (env : Env) (options : IssueProcessorOptions) (issue : Issue)
    (staleLabel : String) :
    closesOf env options issue staleLabel = true ↔
      (0 ≤ options.daysBeforeClose
       ∧ ¬ ((markedStaleOnOf env issue staleLabel).isEmpty = true
            ∨ ∃ c ∈ env.comments issue.number (markedStaleOnOf env issue staleLabel),
                c.user.type = "User" ∧ c.user.login ≠ env.actor)
       ∧ ¬ (env.now - env.parseTime issue.updated_at ≤
              86400000 * (options.daysBeforeClose + options.daysBeforeStale))) := by
  have hprod : (1000 * 60 * 60 * 24 : Int) = 86400000 := by norm_num
  by_cases hM : (markedStaleOnOf env issue staleLabel).isEmpty
  · unfold closesOf hasCommentsOf
    rw [if_pos hM]
    simp [hM]
  · unfold closesOf hasCommentsOf hasUpdateOf updatedSince filteredCommentsOf
    dsimp only
    rw [if_neg hM, hprod]
    simp only [Bool.and_eq_true, Bool.not_eq_true', decide_eq_false_iff_not,
      length_filter_pos_iff, beq_iff_eq, bne_iff_ne, eq_false hM, false_or]
    simp only [not_lt]

/-- C4: a stale item evaluated for closure is closed (appended to
`closedIssues`) iff `daysBeforeClose ≥ 0`, there is no qualifying comment —
where an absent/empty stale-label application timestamp conservatively
counts as "has comments", and otherwise a qualifying comment is one fetched
since that timestamp authored by a `User`-type account whose login differs
from the invoking actor — and the item's (possibly synthetic) last-updated
timestamp is not within `daysBeforeClose + daysBeforeStale` days
(86 400 000 ms each) of now. -/
theorem c4_close_iff (env : Env) (options : IssueProcessorOptions) (issue : Issue)
    (staleLabel : String) (st : ProcState) :
    (processStaleIssue env options issue staleLabel st).closedIssues =
        st.closedIssues ++ [issue]
      ↔ (0 ≤ options.daysBeforeClose
         ∧ ¬ ((markedStaleOnOf env issue staleLabel).isEmpty = true
              ∨ ∃ c ∈ env.comments issue.number (markedStaleOnOf env issue staleLabel),
                  c.user.type = "User" ∧ c.user.login ≠ env.actor)
         ∧ ¬ (env.now - env.parseTime issue.updated_at ≤
                86400000 * (options.daysBeforeClose + options.daysBeforeStale))) := by
  rw [← closesOf_iff env options issue staleLabel, processStaleIssue_spec]
  dsimp only
  by_cases h : closesOf env options issue staleLabel = true
  · simp [h]
  · simp [h]

/-- C8: the dry run and the real run of the whole batch driver return the
same value, the same final budget, and the same three bookkeeping lists,
and the dry run issues zero mutation wire calls (the model's mutations
always succeed, matching the claim's assumption). -/
theorem c8_dry_run_equivalence (env : Env) (options : IssueProcessorOptions) :
    (runProcess env { options with debugOnly := true }).1 =
        (runProcess env { options with debugOnly := false }).1
      ∧ (runProcess env { options with debugOnly := true }).2.operationsLeft =
          (runProcess env { options with debugOnly := false }).2.operationsLeft
      ∧ (runProcess env { options with debugOnly := true }).2.staleIssues =
          (runProcess env { options with debugOnly := false }).2.staleIssues
      ∧ (runProcess env { options with debugOnly := true }).2.closedIssues =
          (runProcess env { options with debugOnly := false }).2.closedIssues
      ∧ (runProcess env { options with debugOnly := true }).2.removedLabelIssues =
          (runProcess env { options with debugOnly := false }).2.removedLabelIssues
      ∧ (runProcess env { options with debugOnly := true }).2.log.filter
          (fun e => e.isMutation) = [] := by
  have hcore := processIssues_core_setDebug env { options with debugOnly := false } true
    (initialState { options with debugOnly := true }).operationsLeft.toNat
    (initialState { options with debugOnly := true })
    (initialState { options with debugOnly := false }) 1 (le_refl _)
    ⟨rfl, rfl, rfl, rfl⟩
  obtain ⟨t, ht, hmut⟩ := processIssues_dry_log env { options with debugOnly := true }
    (initialState { options with debugOnly := true }).operationsLeft.toNat
    (initialState { options with debugOnly := true }) 1 (le_refl _) rfl
  obtain ⟨h1, ho, hs, hc, hr⟩ := hcore
  refine ⟨h1, ho, hs, hc, hr, ?_⟩
  show (processIssues env { options with debugOnly := true }
    (initialState { options with debugOnly := true }) 1).2.log.filter
      (fun e => e.isMutation) = []
  rw [ht]
  exact hmut
